import Mathlib

/-!
# Verification of `mgi::CSeqAllocCont` (MusicGameInfrasture, mgiContainer.h)

Shallow embedding of the sequential (bump/arena) allocator
`template <unsigned int nBlockSize> class CSeqAllocCont`.

Modelling choices:
* Machine addresses (`uintptr_t`) are modelled as `Nat`.  Every arithmetic
  operation the code performs on `pCurrent` (`&`, `+`, comparisons) coincides
  with the `Nat` operations as long as no `uintptr_t` wrap-around occurs,
  which holds whenever all block addresses stay below `2^64 - nBlockSize -
  sizeof T`; real heap addresses do.
* A `NODE_t` is identified by the base address of its `data` array (the
  `data` member is at offset 0, so `(uintptr_t)pNode = (uintptr_t)&pNode->data[0]`,
  and `&pNode->data[nBlockSize]` is `base + nBlockSize`).  The singly linked
  chain `pHead -> pHead->next -> ...` is modelled as the list of those base
  addresses, head first; the `next` pointer of the node at index `i` is the
  node at index `i+1` when it exists, and `nullptr` when `i` is the last
  index.
* `pLast` is modelled as the index of the tail node in the chain, `none`
  standing for a null `pLast` (which the code produces after `Reset`).
* The memory source (`operator new` for `NODE_t`) is modelled as a list of
  base addresses it hands out in order; an empty list means the next `new`
  fails.  Both `new` failing and the explicit `throw std::bad_alloc()` raise
  the C++ exception type `std::bad_alloc`, modelled by `CppExc.bad_alloc`.
  Since the C++ object keeps its (partially mutated) state when an exception
  propagates out of `Allocate`, the embedding returns the state alongside
  the error.
-/

namespace mgi

/-- The C++ exception types the allocator can let escape.  `operator new`
failure and the explicit `throw std::bad_alloc()` at the capacity check both
raise `std::bad_alloc`. -/
inductive CppExc where
  | bad_alloc
deriving DecidableEq

/-- State of a `CSeqAllocCont` instance: `blocks` is the chain of `NODE_t`
base addresses starting at `pHead`, `last` the index of `pLast` in the chain
(`none` for a null `pLast`), `pCurrent` the bump cursor. -/
structure Arena where
  blocks : List Nat
  last : Option Nat
  pCurrent : Nat
deriving DecidableEq

/-- Default constructor: `pHead = new NODE_t{...}`, `pLast = pHead`,
`pCurrent = (uintptr_t)pHead`, where `a` is the address `new` returned. -/
def ArenaInit (a : Nat) : Arena := ⟨[a], some 0, a⟩

/-- Lines 76-80 and 87-91: the alignment-correction step
`if ((pCurrent & alignof(T)) != 0) { pCurrent &= alignof(T); pCurrent += alignof(T); }`. -/
def alignFix (pC alT : Nat) : Nat :=
  if pC &&& alT ≠ 0 then (pC &&& alT) + alT else pC

/-- Lines 81-86: capacity check and block switch.
`if (pCurrent + sizeof(T) > (uintptr_t)&pLast->data[nBlockSize]) {
   if (pLast->next==nullptr) pLast->next = new NODE_t{...};
   pLast = pLast->next; pCurrent = (uintptr_t)pLast; }`
Returns the chain, tail index, cursor and remaining memory source; `none`
means `new NODE_t` threw (out of memory). -/
def switchStep (nBS szT : Nat) (bs : List Nat) (li pC : Nat) (sup : List Nat) :
    Option (List Nat × Nat × Nat × List Nat) :=
  if pC + szT > bs.getD li 0 + nBS then
    if li + 1 = bs.length then
      match sup with
      | [] => none
      | a :: rest => some (bs ++ [a], li + 1, a, rest)
    else some (bs, li + 1, bs.getD (li + 1) 0, sup)
  else some (bs, li, pC, sup)

/-- Lines 87-97: the second alignment correction with its capacity check and
`throw std::bad_alloc()`, then `pRet = pCurrent; pCurrent += sizeof(T);
return new(pRet) T(...)`. -/
def finishStep (nBS szT alT : Nat) (bs : List Nat) (li pC : Nat) (sup : List Nat) :
    Except CppExc Nat × Arena × List Nat :=
  if pC &&& alT ≠ 0 then
    let p := (pC &&& alT) + alT
    if p + szT > bs.getD li 0 + nBS then
      (.error .bad_alloc, ⟨bs, some li, p⟩, sup)
    else (.ok p, ⟨bs, some li, p + szT⟩, sup)
  else (.ok pC, ⟨bs, some li, pC + szT⟩, sup)

/-- Lines 73-98: `template<class T, class... Args> T* Allocate(Args&&... args)`
for a `T` with `sizeof(T) = szT` and `alignof(T) = alT`.  Returns `none` when
the call dereferences a null `pLast` (undefined behaviour, possible after
`Reset`); otherwise the outcome (returned address or escaped exception),
the arena state after the call, and the remaining memory source. -/
def Allocate (nBS szT alT : Nat) :
    Arena → List Nat → Option (Except CppExc Nat × Arena × List Nat)
  | ⟨_, none, _⟩, _ => none
  | ⟨bs, some li, pc⟩, sup =>
    let pC1 := alignFix pc alT
    match switchStep nBS szT bs li pC1 sup with
    | none => some (.error .bad_alloc, ⟨bs, some li, pC1⟩, sup)
    | some (bs2, li2, pC2, sup2) => some (finishStep nBS szT alT bs2 li2 pC2 sup2)

/-- Lines 103-107: `void Clean() { pLast = pHead; pCurrent = (uintptr_t)pHead; }`. -/
def Clean (s : Arena) : Arena :=
  ⟨s.blocks, some 0, s.blocks.headI⟩

/-- Lines 112-121: `void Reset()`.  It deletes every node after `pHead` and
nulls `pHead->next`; the loop leaves `pLast == nullptr`, and `pCurrent` is
not touched. -/
def Reset (s : Arena) : Arena :=
  ⟨[s.blocks.headI], none, s.pCurrent⟩

/-- A sequence of `Allocate` calls with parameters `(sizeof T, alignof T)`,
threading the arena state and the memory source and collecting the returned
addresses; stops at the first escaped exception. -/
def runAllocs (nBS : Nat) :
    List (Nat × Nat) → Arena → List Nat →
    Option (Except CppExc (List Nat) × Arena × List Nat)
  | [], s, sup => some (.ok [], s, sup)
  | (szT, alT) :: rs, s, sup =>
    match Allocate nBS szT alT s sup with
    | none => none
    | some (.error e, s1, sup1) => some (.error e, s1, sup1)
    | some (.ok r, s1, sup1) =>
      match runAllocs nBS rs s1 sup1 with
      | none => none
      | some (.error e, s2, sup2) => some (.error e, s2, sup2)
      | some (.ok rs2, s2, sup2) => some (.ok (r :: rs2), s2, sup2)

/-- The spec's "ready"-state invariant: `pLast` is a node of the chain
reachable from `pHead` (a valid index), and the cursor lies within the tail
block's storage range. -/
def ReadyInv (nBS : Nat) (s : Arena) : Prop :=
  match s.last with
  | none => False
  | some li =>
      li < s.blocks.length ∧
      s.blocks.getD li 0 ≤ s.pCurrent ∧ s.pCurrent ≤ s.blocks.getD li 0 + nBS

instance (nBS : Nat) (s : Arena) : Decidable (ReadyInv nBS s) :=
  match s with
  | ⟨_, none, _⟩ => isFalse (fun h => h)
  | ⟨bs, some li, pc⟩ =>
      inferInstanceAs (Decidable (li < bs.length ∧ bs.getD li 0 ≤ pc ∧ pc ≤ bs.getD li 0 + nBS))

/-- The spec's round-up-to-alignment primitive ("the cursor is advanced to
the next address satisfying T's alignment requirement"), used only to state
what the aligned placement of `T` would be. -/
def specAlignUp (p a : Nat) : Nat := ((p + a - 1) / a) * a

end mgi

namespace mgi

/-! ## Divergences of the code from the specified behaviour

The alignment-correction step (lines 76-80 and 87-91) is written
`pCurrent &= alignof(T); pCurrent += alignof(T);` instead of masking with
`alignof(T) - 1`; whenever it fires it collapses the cursor to the small
absolute value `(pCurrent & alignof(T)) + alignof(T) = 2 * alignof(T)`,
abandoning the block entirely, and it does not fire on addresses that are
misaligned but have the single tested bit clear.  `Reset` (lines 112-121)
never restores `pLast` (the loop leaves it null) nor `pCurrent`.  The
following theorems exhibit these divergences on concrete runs. -/

/-- C1: refuted on the code.  With `nBlockSize = 256` and a head block at
address 1024, two consecutive `Allocate<T>()` calls with `sizeof(T) = 4`,
`alignof(T) = 4` succeed, but the second call returns address 8: the range
`[8, 12)` lies outside the storage `[1024, 1280)` of every block of the
chain (the chain is still just `[1024]`), contradicting the claim that each
returned range lies within a single block's storage. -/
theorem c1_allocation_escapes_block :
    runAllocs 256 [(4, 4), (4, 4)] (ArenaInit 1024) []
      = some (.ok [1024, 8], ⟨[1024], some 0, 12⟩, []) ∧
    ¬ (1024 ≤ 8 ∧ 8 + 4 ≤ 1024 + 256) :=
  ⟨rfl, by decide⟩

/-- C4: refuted on the code.  With a head block at 2048 and `sizeof(T) =
alignof(T) = 8`, two consecutive successful `Allocate` calls keep the same
tail block (`pLast` stays at the head, the chain is unchanged), yet the
second returned address 16 is smaller than the first returned address 2048,
contradicting strictly increasing addresses within one block. -/
theorem c4_addresses_not_increasing :
    runAllocs 256 [(8, 8), (8, 8)] (ArenaInit 2048) []
      = some (.ok [2048, 16], ⟨[2048], some 0, 24⟩, []) ∧
    ¬ (2048 < 16) :=
  ⟨rfl, by decide⟩

/-- C5: refuted on the code.  `nBlockSize = 256`; the head block at 1024 is
filled by a first 256-byte allocation; the second call (`sizeof(T) = 256`,
`alignof(T) = 32`) switches to a fresh block whose base 2064 is 16-aligned
(as a real `operator new` result would be) but not 32-aligned.  The aligned
placement of `T` in that fresh block, `specAlignUp 2064 32 + 256 = 2336`,
exceeds the block's capacity bound `2064 + 256 = 2320`, so the claim demands
an "allocation impossible" error; the code instead returns success with the
misaligned address 2064 (its second alignment check tests only bit 5 of the
base, which is clear). -/
theorem c5_impossible_not_signalled :
    runAllocs 256 [(256, 1), (256, 32)] (ArenaInit 1024) [2064]
      = some (.ok [1024, 2064], ⟨[1024, 2064], some 1, 2320⟩, []) ∧
    specAlignUp 2064 32 + 256 > 2064 + 256 ∧ 2064 % 16 = 0 :=
  ⟨rfl, by decide, by decide⟩

/-- C2: refuted on the code.  Starting from a fresh arena with head at 4096,
two 200-byte allocations (the second acquiring a block at 8192) reach the
state `⟨[4096, 8192], pLast = node 1, pCurrent = 8392⟩`.  `Reset` on that
state does release the non-head block (the chain becomes the single block
`[4096]`), but it leaves `pLast = nullptr` — not designating head — and
leaves `pCurrent = 8392`, not the start 4096 of head's storage. -/
theorem c2_reset_leaves_null_tail :
    runAllocs 256 [(200, 1), (200, 1)] (ArenaInit 4096) [8192]
      = some (.ok [4096, 8192], ⟨[4096, 8192], some 1, 8392⟩, []) ∧
    Reset ⟨[4096, 8192], some 1, 8392⟩ = ⟨[4096], none, 8392⟩ ∧
    (Reset ⟨[4096, 8192], some 1, 8392⟩).last ≠ some 0 ∧
    (Reset ⟨[4096, 8192], some 1, 8392⟩).pCurrent ≠ 4096 :=
  ⟨rfl, rfl, by decide, by decide⟩

/-- C3: refuted on the code.  The reachable state
`⟨[4096, 8192], pLast = node 1, pCurrent = 8392⟩` (obtained from a fresh
arena by two 200-byte allocations) satisfies the ready-state invariant, but
the state after `Reset` does not: `pLast` is null, hence the tail is not a
node reachable from head, so `Reset` does not preserve the invariant. -/
theorem c3_ready_invariant_broken :
    runAllocs 256 [(200, 1), (200, 1)] (ArenaInit 4096) [8192]
      = some (.ok [4096, 8192], ⟨[4096, 8192], some 1, 8392⟩, []) ∧
    ReadyInv 256 ⟨[4096, 8192], some 1, 8392⟩ ∧
    ¬ ReadyInv 256 (Reset ⟨[4096, 8192], some 1, 8392⟩) :=
  ⟨rfl, by decide, by decide⟩

/-- C8 counterexample: the two failure modes are not distinct.  On a full
head block with no successor, `Allocate` with an empty memory source fails
out-of-memory (`new NODE_t` throws), and `Allocate` with `sizeof(T) = 250`,
`alignof(T) = 8` onto a fresh block at base 8 fails through the explicit
`throw std::bad_alloc()` of the "allocation impossible" check at line 93 —
both escape as the very same exception value `std::bad_alloc`, so the
caller cannot distinguish them. -/
theorem c8_both_errors_bad_alloc :
    Allocate 256 256 1 ⟨[1024], some 0, 1280⟩ []
      = some (.error CppExc.bad_alloc, ⟨[1024], some 0, 1280⟩, []) ∧
    Allocate 256 250 8 ⟨[1024], some 0, 1280⟩ [8]
      = some (.error CppExc.bad_alloc, ⟨[1024, 8], some 1, 16⟩, []) :=
  ⟨rfl, rfl⟩

/-- C7: confirmed.  `Clean` is a total function (it cannot fail) that sets
`pLast` to the head node, sets the cursor to the start of head's storage
(`(uintptr_t)pHead`), and leaves the whole chain — every block and every
`next` link — unchanged, releasing nothing. -/
theorem c7_clean_frame (s : Arena) :
    (Clean s).blocks = s.blocks ∧ (Clean s).last = some 0 ∧
    (Clean s).pCurrent = s.blocks.headI :=
  ⟨rfl, rfl, rfl⟩

/-- C10: confirmed.  `Reset` is idempotent: a second `Reset` finds
`pHead->next = nullptr`, so its loop deletes nothing and it leaves head,
head's next link, `pLast` and `pCurrent` exactly as the first call left
them; and after any `Reset` the chain is exactly the single head node, so
the destructor's `Reset(); delete pHead;` sequence remains safe after an
explicit `Reset`. -/
theorem c10_reset_idempotent (s : Arena) :
    Reset (Reset s) = Reset s ∧ (Reset s).blocks = [s.blocks.headI] ∧
    (Reset s).blocks.length = 1 :=
  ⟨rfl, rfl, rfl⟩

end mgi

namespace mgi

/-! ## Helper lemmas about the shape of `Allocate` results -/

lemma getD_append_middle (l1 l2 : List Nat) (a : Nat) :
    (l1 ++ a :: l2).getD l1.length 0 = a := by
  rw [List.getD_append_right _ _ _ _ (Nat.le.refl)]
  simp

lemma headI_append_left (l1 l2 : List Nat) (h : l1 ≠ []) :
    (l1 ++ l2).headI = l1.headI := by
  cases l1 with
  | nil => exact absurd rfl h
  | cons a t => rfl

/-- `finishStep` looks at its chain only through the tail block's base
address: two calls agreeing on that base produce the same outcome and
cursor, each relative to its own chain, tail index and memory source. -/
lemma finishStep_congr (nBS szT alT : Nat) (bs bt sup sut : List Nat)
    (li lj pC : Nat) (hb : bs.getD li 0 = bt.getD lj 0) :
    ∃ res pc2, finishStep nBS szT alT bs li pC sup = (res, ⟨bs, some li, pc2⟩, sup) ∧
        finishStep nBS szT alT bt lj pC sut = (res, ⟨bt, some lj, pc2⟩, sut) := by
  simp only [finishStep]
  rw [hb]
  split_ifs <;> exact ⟨_, _, rfl, rfl⟩

/-- `finishStep` keeps the chain, makes the given index the tail, and keeps
the memory source. -/
lemma finishStep_shape (nBS szT alT : Nat) (bs sup : List Nat) (li pC : Nat) :
    ∃ res pc2, finishStep nBS szT alT bs li pC sup = (res, ⟨bs, some li, pc2⟩, sup) := by
  simp only [finishStep]
  split_ifs <;> exact ⟨_, _, rfl⟩

/-- Any completed `Allocate` call leaves a non-null tail index that is valid
for the resulting chain, and only ever appends to the chain. -/
lemma allocate_shape (nBS szT alT : Nat) (bs sup sup2 : List Nat) (li pc : Nat)
    (res : Except CppExc Nat) (t : Arena)
    (hli : li < bs.length)
    (h : Allocate nBS szT alT ⟨bs, some li, pc⟩ sup = some (res, t, sup2)) :
    (∃ li2, t.last = some li2 ∧ li2 < t.blocks.length) ∧ ∃ ext, t.blocks = bs ++ ext := by
  by_cases hcap : alignFix pc alT + szT > bs.getD li 0 + nBS
  · by_cases hend : li + 1 = bs.length
    · cases sup with
      | nil =>
        simp only [Allocate, switchStep, hcap, hend, if_pos, if_true] at h
        obtain ⟨rfl, rfl, rfl⟩ := (by simpa using h :
          Except.error CppExc.bad_alloc = res ∧
            (⟨bs, some li, alignFix pc alT⟩ : Arena) = t ∧ ([] : List Nat) = sup2)
        exact ⟨⟨li, rfl, hli⟩, ⟨[], by simp⟩⟩
      | cons a rest =>
        simp only [Allocate, switchStep, hcap, hend, if_pos, if_true] at h
        obtain ⟨res2, pc2, he⟩ := finishStep_shape nBS szT alT (bs ++ [a]) rest bs.length a
        rw [he] at h
        obtain ⟨rfl, rfl, rfl⟩ := (by simpa using h :
          res2 = res ∧ (⟨bs ++ [a], some bs.length, pc2⟩ : Arena) = t ∧ rest = sup2)
        exact ⟨⟨bs.length, rfl, by simp⟩, ⟨[a], rfl⟩⟩
    · have hlt : li + 1 < bs.length := Nat.lt_of_le_of_ne hli hend
      simp only [Allocate, switchStep, hcap, hend, if_pos, if_true, if_false] at h
      obtain ⟨res2, pc2, he⟩ := finishStep_shape nBS szT alT bs sup (li + 1) (bs.getD (li + 1) 0)
      rw [he] at h
      obtain ⟨rfl, rfl, rfl⟩ := (by simpa using h :
        res2 = res ∧ (⟨bs, some (li + 1), pc2⟩ : Arena) = t ∧ sup = sup2)
      exact ⟨⟨li + 1, rfl, hlt⟩, ⟨[], by simp⟩⟩
  · simp only [Allocate, switchStep, hcap, if_false] at h
    obtain ⟨res2, pc2, he⟩ := finishStep_shape nBS szT alT bs sup li (alignFix pc alT)
    rw [he] at h
    obtain ⟨rfl, rfl, rfl⟩ := (by simpa using h :
      res2 = res ∧ (⟨bs, some li, pc2⟩ : Arena) = t ∧ sup = sup2)
    exact ⟨⟨li, rfl, hli⟩, ⟨[], by simp⟩⟩

end mgi

namespace mgi

/-- Replaying a successful `Allocate` step against any chain that extends
the step's resulting chain reproduces the same returned address, tail index
and cursor, and consumes nothing from the memory source: every block the
step needs is already linked in. -/
lemma allocate_replay (nBS szT alT : Nat) (bs bs2 ext sup sup2 sup3 : List Nat)
    (li pc r : Nat) (l2 : Option Nat) (pc2 : Nat)
    (hli : li < bs.length)
    (h : Allocate nBS szT alT ⟨bs, some li, pc⟩ sup = some (.ok r, ⟨bs2, l2, pc2⟩, sup3)) :
    Allocate nBS szT alT ⟨bs2 ++ ext, some li, pc⟩ sup2
      = some (.ok r, ⟨bs2 ++ ext, l2, pc2⟩, sup2) := by
  by_cases hcap : alignFix pc alT + szT > bs.getD li 0 + nBS
  · by_cases hend : li + 1 = bs.length
    · cases sup with
      | nil =>
        simp only [Allocate, switchStep, hcap, hend, if_pos, if_true] at h
        simp at h
      | cons a rest =>
        simp only [Allocate, switchStep, hcap, hend, if_pos, if_true] at h
        have hbase : (bs ++ [a]).getD bs.length 0 = a := getD_append_middle bs [] a
        have hbase2 : (bs ++ [a] ++ ext).getD bs.length 0 = a := by
          rw [List.append_assoc, List.singleton_append, getD_append_middle bs ext a]
        obtain ⟨res2, pc3, he1, he2⟩ := finishStep_congr nBS szT alT (bs ++ [a])
          (bs ++ [a] ++ ext) rest sup2 bs.length bs.length a (by rw [hbase, hbase2])
        rw [he1] at h
        obtain ⟨rfl, ⟨rfl, rfl, rfl⟩, rfl⟩ := (by simpa using h :
          res2 = Except.ok r ∧ (bs ++ [a] = bs2 ∧ some bs.length = l2 ∧ pc3 = pc2) ∧
            rest = sup3)
        have hlen : li < (bs ++ [a]).length := by
          simp only [List.length_append, List.length_singleton]
          omega
        have hcap2 : alignFix pc alT + szT > (bs ++ [a] ++ ext).getD li 0 + nBS := by
          rw [List.getD_append _ _ _ _ hlen, List.getD_append _ _ _ _ hli]
          exact hcap
        have hend2 : ¬ (bs.length = (bs ++ [a] ++ ext).length) := by
          simp only [List.length_append, List.length_singleton]
          omega
        simp only [Allocate, switchStep, hcap2, hend2, if_pos, if_true, if_false, hend,
          hbase2]
        rw [he2]
    · have hlt : li + 1 < bs.length := Nat.lt_of_le_of_ne hli hend
      simp only [Allocate, switchStep, hcap, hend, if_pos, if_true, if_false] at h
      obtain ⟨res2, pc3, he1, he2⟩ := finishStep_congr nBS szT alT bs (bs ++ ext) sup sup2
        (li + 1) (li + 1) (bs.getD (li + 1) 0) (List.getD_append _ _ _ _ hlt).symm
      rw [he1] at h
      obtain ⟨rfl, ⟨rfl, rfl, rfl⟩, rfl⟩ := (by simpa using h :
        res2 = Except.ok r ∧ (bs = bs2 ∧ some (li + 1) = l2 ∧ pc3 = pc2) ∧ sup = sup3)
      have hcap2 : alignFix pc alT + szT > (bs ++ ext).getD li 0 + nBS := by
        rw [List.getD_append _ _ _ _ hli]
        exact hcap
      have hend2 : ¬ (li + 1 = (bs ++ ext).length) := by
        simp only [List.length_append]
        omega
      have hget : (bs ++ ext).getD (li + 1) 0 = bs.getD (li + 1) 0 :=
        List.getD_append _ _ _ _ hlt
      simp only [Allocate, switchStep, hcap2, hend2, if_pos, if_true, if_false, hget]
      rw [he2]
  · simp only [Allocate, switchStep, hcap, if_false] at h
    obtain ⟨res2, pc3, he1, he2⟩ := finishStep_congr nBS szT alT bs (bs ++ ext) sup sup2
      li li (alignFix pc alT) (List.getD_append _ _ _ _ hli).symm
    rw [he1] at h
    obtain ⟨rfl, ⟨rfl, rfl, rfl⟩, rfl⟩ := (by simpa using h :
      res2 = Except.ok r ∧ (bs = bs2 ∧ some li = l2 ∧ pc3 = pc2) ∧ sup = sup3)
    have hcap2 : ¬ (alignFix pc alT + szT > (bs ++ ext).getD li 0 + nBS) := by
      rw [List.getD_append _ _ _ _ hli]
      exact hcap
    simp only [Allocate, switchStep, hcap2, if_false]
    rw [he2]

end mgi

namespace mgi

/-- Along any completed `runAllocs`, the tail index stays non-null and valid
and the chain only ever grows by appending: the final chain extends the
initial one. -/
lemma runAllocs_extends (nBS : Nat) (reqs : List (Nat × Nat)) :
    ∀ (bs sup sup2 : List Nat) (li pc : Nat) (res : Except CppExc (List Nat)) (t : Arena),
    li < bs.length →
    runAllocs nBS reqs ⟨bs, some li, pc⟩ sup = some (res, t, sup2) →
    (∃ li2, t.last = some li2 ∧ li2 < t.blocks.length) ∧ ∃ ext, t.blocks = bs ++ ext := by
  induction reqs with
  | nil =>
    intro bs sup sup2 li pc res t hli h
    obtain ⟨rfl, rfl, rfl⟩ := (by simpa [runAllocs] using h :
      Except.ok [] = res ∧ (⟨bs, some li, pc⟩ : Arena) = t ∧ sup = sup2)
    exact ⟨⟨li, rfl, hli⟩, ⟨[], by simp⟩⟩
  | cons rq rs ih =>
    obtain ⟨szT, alT⟩ := rq
    intro bs sup sup2 li pc res t hli h
    simp only [runAllocs] at h
    rcases hA : Allocate nBS szT alT ⟨bs, some li, pc⟩ sup with _ | ⟨res1, s1, sup1⟩
    · rw [hA] at h
      exact absurd h (by simp)
    · rw [hA] at h
      obtain ⟨⟨li1, hl1, hv1⟩, ⟨e1, he1⟩⟩ :=
        allocate_shape nBS szT alT bs sup sup1 li pc res1 s1 hli hA
      obtain ⟨bs1, l1, pc1⟩ := s1
      simp only at hl1 he1
      subst hl1 he1
      cases res1 with
      | error e =>
        obtain ⟨rfl, rfl, rfl⟩ := (by simpa using h :
          Except.error e = res ∧ (⟨bs ++ e1, some li1, pc1⟩ : Arena) = t ∧ sup1 = sup2)
        exact ⟨⟨li1, rfl, hv1⟩, ⟨e1, rfl⟩⟩
      | ok r =>
        simp only at h
        rcases hR : runAllocs nBS rs ⟨bs ++ e1, some li1, pc1⟩ sup1
          with _ | ⟨res2, s2, sup4⟩
        · rw [hR] at h
          exact absurd h (by simp)
        · rw [hR] at h
          obtain ⟨hlast2, ⟨e2, he2⟩⟩ := ih (bs ++ e1) sup1 sup4 li1 pc1 res2 s2 hv1 hR
          have hext : ∃ ext, s2.blocks = bs ++ ext := ⟨e1 ++ e2, by rw [he2, List.append_assoc]⟩
          cases res2 with
          | error e =>
            obtain ⟨rfl, rfl, rfl⟩ := (by simpa using h :
              Except.error e = res ∧ s2 = t ∧ sup4 = sup2)
            exact ⟨hlast2, hext⟩
          | ok rs2 =>
            obtain ⟨rfl, rfl, rfl⟩ := (by simpa using h :
              Except.ok (r :: rs2) = res ∧ s2 = t ∧ sup4 = sup2)
            exact ⟨hlast2, hext⟩

/-- Replaying a successful allocation sequence against any chain extending
its final chain reproduces the same addresses and final tail and cursor,
and consumes nothing from the memory source. -/
lemma runAllocs_replay (nBS : Nat) (reqs : List (Nat × Nat)) :
    ∀ (bs bs2 ext sup sup2 sup3 : List Nat) (li pc : Nat) (rets : List Nat)
      (l2 : Option Nat) (pc2 : Nat),
    li < bs.length →
    runAllocs nBS reqs ⟨bs, some li, pc⟩ sup = some (.ok rets, ⟨bs2, l2, pc2⟩, sup3) →
    runAllocs nBS reqs ⟨bs2 ++ ext, some li, pc⟩ sup2
      = some (.ok rets, ⟨bs2 ++ ext, l2, pc2⟩, sup2) := by
  induction reqs with
  | nil =>
    intro bs bs2 ext sup sup2 sup3 li pc rets l2 pc2 hli h
    obtain ⟨rfl, ⟨rfl, rfl, rfl⟩, rfl⟩ := (by simpa [runAllocs] using h :
      ([] : List Nat) = rets ∧ (bs = bs2 ∧ some li = l2 ∧ pc = pc2) ∧ sup = sup3)
    simp [runAllocs]
  | cons rq rs ih =>
    obtain ⟨szT, alT⟩ := rq
    intro bs bs2 ext sup sup2 sup3 li pc rets l2 pc2 hli h
    simp only [runAllocs] at h
    rcases hA : Allocate nBS szT alT ⟨bs, some li, pc⟩ sup with _ | ⟨res1, s1, sup1⟩
    · rw [hA] at h
      exact absurd h (by simp)
    · rw [hA] at h
      obtain ⟨⟨li1, hl1, hv1⟩, ⟨e1, he1⟩⟩ :=
        allocate_shape nBS szT alT bs sup sup1 li pc res1 s1 hli hA
      obtain ⟨bs1, l1, pc1⟩ := s1
      simp only at hl1 he1
      subst hl1 he1
      cases res1 with
      | error e =>
        exact absurd h (by simp)
      | ok r =>
        simp only at h
        rcases hR : runAllocs nBS rs ⟨bs ++ e1, some li1, pc1⟩ sup1
          with _ | ⟨res2, s2, sup4⟩
        · rw [hR] at h
          exact absurd h (by simp)
        · rw [hR] at h
          cases res2 with
          | error e =>
            exact absurd h (by simp)
          | ok rets2 =>
            obtain ⟨rfl, rfl, rfl⟩ := (by simpa using h :
              r :: rets2 = rets ∧ s2 = (⟨bs2, l2, pc2⟩ : Arena) ∧ sup4 = sup3)
            obtain ⟨_, ⟨e2, he2⟩⟩ :=
              runAllocs_extends nBS rs (bs ++ e1) sup1 sup4 li1 pc1 (.ok rets2)
                ⟨bs2, l2, pc2⟩ hv1 hR
            simp only at he2
            have hstep : Allocate nBS szT alT ⟨bs2 ++ ext, some li, pc⟩ sup2
                = some (.ok r, ⟨bs2 ++ ext, some li1, pc1⟩, sup2) := by
              have := allocate_replay nBS szT alT bs (bs ++ e1) (e2 ++ ext) sup sup2 sup1
                li pc r (some li1) pc1 hli hA
              rw [← List.append_assoc, ← he2] at this
              exact this
            have hrest : runAllocs nBS rs ⟨bs2 ++ ext, some li1, pc1⟩ sup2
                = some (.ok rets2, ⟨bs2 ++ ext, l2, pc2⟩, sup2) :=
              ih (bs ++ e1) bs2 ext sup1 sup2 sup4 li1 pc1 rets2 l2 pc2 hv1 hR
            simp only [runAllocs, hstep, hrest]

end mgi

namespace mgi

/-- C6: confirmed.  (a) When the aligned cursor exceeds the tail block's
bound and the tail already has a successor block (left over from a prior
`Clean`), `Allocate` reuses that successor as the new tail and places the
object from its start (here stated for a successor whose base passes the
code's alignment test), leaving the chain and the memory source untouched —
no new block is acquired.  (b) Consequently, replaying any successful
allocation sequence after `Clean` acquires zero new blocks: the run returns
the same addresses and final state while the memory source is left whole. -/
theorem c6_clean_reuse :
    (∀ (nBS szT alT : Nat) (bs sup : List Nat) (li pc : Nat),
        li + 1 < bs.length →
        alignFix pc alT + szT > bs.getD li 0 + nBS →
        bs.getD (li + 1) 0 &&& alT = 0 →
        Allocate nBS szT alT ⟨bs, some li, pc⟩ sup
          = some (.ok (bs.getD (li + 1) 0),
              ⟨bs, some (li + 1), bs.getD (li + 1) 0 + szT⟩, sup)) ∧
    (∀ (nBS : Nat) (reqs : List (Nat × Nat)) (s0 s1 : Arena)
        (sup sup1 sup2 rets : List Nat),
        s0.last = some 0 → s0.blocks ≠ [] → s0.pCurrent = s0.blocks.headI →
        runAllocs nBS reqs s0 sup = some (.ok rets, s1, sup1) →
        runAllocs nBS reqs (Clean s1) sup2 = some (.ok rets, s1, sup2)) := by
  constructor
  · intro nBS szT alT bs sup li pc hlt hcap hal
    have hend : ¬ (li + 1 = bs.length) := Nat.ne_of_lt hlt
    simp only [Allocate, switchStep, hcap, hend, if_pos, if_true, if_false]
    simp only [finishStep, hal, ne_eq, not_true_eq_false, if_false, ite_false]
  · intro nBS reqs s0 s1 sup sup1 sup2 rets h0 hne hpc hrun
    obtain ⟨bs0, l0, pc0⟩ := s0
    simp only at h0 hpc hrun hne
    subst h0
    have hlen0 : 0 < bs0.length := List.length_pos.mpr hne
    obtain ⟨bs1, l1, pc1⟩ := s1
    obtain ⟨⟨li1, hl1, hv1⟩, ⟨ext0, hext0⟩⟩ :=
      runAllocs_extends nBS reqs bs0 sup sup1 0 pc0 (.ok rets) ⟨bs1, l1, pc1⟩ hlen0 hrun
    simp only at hl1 hext0
    have hhead : bs1.headI = pc0 := by
      rw [hext0, headI_append_left bs0 ext0 hne, hpc]
    have hrep := runAllocs_replay nBS reqs bs0 bs1 [] sup sup2 sup1 0 pc0 rets l1 pc1
      hlen0 hrun
    rw [List.append_nil] at hrep
    show runAllocs nBS reqs ⟨bs1, some 0, bs1.headI⟩ sup2 = _
    rw [hhead]
    exact hrep

/-- Witness for C6 at concrete inputs: a full tail with an already-linked
successor at 2048 is reused without touching the (empty) memory source, and
a one-allocation run replayed after `Clean` returns the same address and
final state while leaving the fresh memory source `[5000]` whole. -/
theorem c6_clean_reuse_witness :
    0 + 1 < ([1024, 2048] : List Nat).length ∧
    Allocate 256 200 1 ⟨[1024, 2048], some 0, 1200⟩ []
      = some (.ok 2048, ⟨[1024, 2048], some 1, 2248⟩, []) ∧
    runAllocs 256 [(200, 1)] (ArenaInit 1024) []
      = some (.ok [1024], ⟨[1024], some 0, 1224⟩, []) ∧
    runAllocs 256 [(200, 1)] (Clean ⟨[1024], some 0, 1224⟩) [5000]
      = some (.ok [1024], ⟨[1024], some 0, 1224⟩, [5000]) := by
  refine ⟨by decide, ?_, rfl, ?_⟩
  · exact c6_clean_reuse.1 256 200 1 [1024, 2048] [] 0 1200 (by decide) (by decide)
      (by decide)
  · exact c6_clean_reuse.2 256 [(200, 1)] (ArenaInit 1024) ⟨[1024], some 0, 1224⟩ [] []
      [5000] [1024] rfl (by decide) rfl rfl

/-- C9: confirmed.  A single completed `Allocate` call either leaves the
chain exactly as it was and consumes nothing from the memory source, or —
only when the tail had no successor at entry (`li + 1 = bs.length`) —
appends exactly one node, acquired as the single next address of the memory
source.  In particular the chain grows by at most one per call. -/
theorem c9_at_most_one_block (nBS szT alT : Nat) (bs sup sup2 : List Nat)
    (li pc : Nat) (res : Except CppExc Nat) (t : Arena)
    (hli : li < bs.length)
    (h : Allocate nBS szT alT ⟨bs, some li, pc⟩ sup = some (res, t, sup2)) :
    (t.blocks = bs ∧ sup2 = sup) ∨
    (∃ a rest, sup = a :: rest ∧ sup2 = rest ∧ t.blocks = bs ++ [a] ∧
      li + 1 = bs.length) := by
  by_cases hcap : alignFix pc alT + szT > bs.getD li 0 + nBS
  · by_cases hend : li + 1 = bs.length
    · cases sup with
      | nil =>
        simp only [Allocate, switchStep, hcap, hend, if_pos, if_true] at h
        obtain ⟨rfl, rfl, rfl⟩ := (by simpa using h :
          Except.error CppExc.bad_alloc = res ∧
            (⟨bs, some li, alignFix pc alT⟩ : Arena) = t ∧ ([] : List Nat) = sup2)
        exact Or.inl ⟨rfl, rfl⟩
      | cons a rest =>
        simp only [Allocate, switchStep, hcap, hend, if_pos, if_true] at h
        obtain ⟨res2, pc2, he⟩ := finishStep_shape nBS szT alT (bs ++ [a]) rest bs.length a
        rw [he] at h
        obtain ⟨rfl, rfl, rfl⟩ := (by simpa using h :
          res2 = res ∧ (⟨bs ++ [a], some bs.length, pc2⟩ : Arena) = t ∧ rest = sup2)
        exact Or.inr ⟨a, rest, rfl, rfl, rfl, hend⟩
    · simp only [Allocate, switchStep, hcap, hend, if_pos, if_true, if_false] at h
      obtain ⟨res2, pc2, he⟩ := finishStep_shape nBS szT alT bs sup (li + 1) (bs.getD (li + 1) 0)
      rw [he] at h
      obtain ⟨rfl, rfl, rfl⟩ := (by simpa using h :
        res2 = res ∧ (⟨bs, some (li + 1), pc2⟩ : Arena) = t ∧ sup = sup2)
      exact Or.inl ⟨rfl, rfl⟩
  · simp only [Allocate, switchStep, hcap, if_false] at h
    obtain ⟨res2, pc2, he⟩ := finishStep_shape nBS szT alT bs sup li (alignFix pc alT)
    rw [he] at h
    obtain ⟨rfl, rfl, rfl⟩ := (by simpa using h :
      res2 = res ∧ (⟨bs, some li, pc2⟩ : Arena) = t ∧ sup = sup2)
    exact Or.inl ⟨rfl, rfl⟩

/-- Witness for C9 at a concrete input: a call that fits in the tail block
leaves the chain `[1024]` unchanged and consumes nothing. -/
theorem c9_at_most_one_block_witness :
    0 < ([1024] : List Nat).length ∧
    (((⟨[1024], some 0, 1028⟩ : Arena).blocks = [1024] ∧ ([] : List Nat) = []) ∨
      ∃ a rest, ([] : List Nat) = a :: rest ∧ ([] : List Nat) = rest ∧
        (⟨[1024], some 0, 1028⟩ : Arena).blocks = [1024] ++ [a] ∧
        0 + 1 = ([1024] : List Nat).length) :=
  ⟨by decide, c9_at_most_one_block 256 4 4 [1024] [] [] 0 1024 (.ok 1024)
    ⟨[1024], some 0, 1028⟩ (by decide) rfl⟩

/-- C8 as amended: when `Allocate` must grow the chain (capacity exceeded
and the tail has no successor) and the memory source cannot supply a block,
the failure propagates to the caller as `std::bad_alloc` — the *same*
exception type the "allocation impossible" check throws, so the two
failures are not distinguishable by the caller. -/
theorem c8_oom_propagates_bad_alloc (nBS szT alT : Nat) (bs : List Nat) (li pc : Nat)
    (hend : li + 1 = bs.length)
    (hcap : alignFix pc alT + szT > bs.getD li 0 + nBS) :
    Allocate nBS szT alT ⟨bs, some li, pc⟩ []
      = some (.error CppExc.bad_alloc, ⟨bs, some li, alignFix pc alT⟩, []) := by
  simp only [Allocate, switchStep, hcap, hend, if_pos, if_true]

/-- Witness for C8's amended statement at a concrete input: a full head
block, empty memory source. -/
theorem c8_oom_propagates_bad_alloc_witness :
    0 + 1 = ([1024] : List Nat).length ∧
    Allocate 256 256 1 ⟨[1024], some 0, 1280⟩ []
      = some (.error CppExc.bad_alloc, ⟨[1024], some 0, alignFix 1280 1⟩, []) :=
  ⟨by decide, c8_oom_propagates_bad_alloc 256 256 1 [1024] 0 1280 rfl (by decide)⟩

end mgi
